import Mathlib

/-!
Verification of the branch-divergence benchmark tool (`bench_compare.py`
and `benchmark.py`) against its natural-language specification.

The Python sources are shallowly embedded: every Python string operation is
modelled on the character list underlying a Lean `String` (matching the character-based
semantics of Python), subprocess results are supplied by explicit
oracles, and the mutable repository state is threaded as an explicit value.
-/

/- ### Python string primitives (character-list semantics) -/

/-- Python `str.strip()`: remove whitespace from both ends. -/
def pyStrip (s : String) : String :=
  ⟨((s.data.dropWhile Char.isWhitespace).reverse.dropWhile Char.isWhitespace).reverse⟩

/-- Python `str.startswith(p)`. -/
def pyStartsWith (s p : String) : Bool :=
  p.data.isPrefixOf s.data

/-- Python `str.endswith(p)`. -/
def pyEndsWith (s p : String) : Bool :=
  p.data.isSuffixOf s.data

/-- Predicate: `sub` occurs as a contiguous run inside the character list `l`. -/
def listInfixOf (sub : List Char) : List Char → Bool
  | [] => sub.isPrefixOf []
  | c :: t => sub.isPrefixOf (c :: t) || listInfixOf sub t

/-- Python `sub in s` (substring containment). -/
def pyContains (s sub : String) : Bool :=
  listInfixOf sub.data s.data

/-- Python `s[n:]` (drop the first `n` characters). -/
def pyDrop (s : String) (n : Nat) : String :=
  ⟨s.data.drop n⟩

/- ### Divergence resolver: `bench_compare.py` lines 50-101 and 128-196 -/

/-- One line of `git branch --all --contains` output, normalized as in
`branches_containing` (strip, drop a leading `"* "`, skip lines containing
`"->"`, strip a leading `"remotes/"`); `none` means the line is skipped. -/
def normalizeRefLine (line : String) : Option String :=
  let l := pyStrip line
  if l = "" then none
  else
    let l := if pyStartsWith l "* " then pyStrip (pyDrop l 2) else l
    if pyContains l "->" then none
    else if pyStartsWith l "remotes/" then some (pyDrop l 8)
    else some l

/-- Model of `branches_containing`, applied to the raw output lines of
`git branch --all --contains <commit>` (an empty output yields `[]`). -/
def branchesContaining (raw : List String) : List String :=
  raw.filterMap normalizeRefLine

/-- The oracle answering the git queries issued by the resolver part of
`bench_compare.py`.  Each field is the (stripped) answer of one command:
`git symbolic-ref --short -q HEAD`, `git rev-list --reverse HEAD`,
`git rev-parse <c>^`, the raw lines of `git branch --all --contains <c>`,
`git rev-parse --verify origin/main`, `git merge-base <base> HEAD` and
`git rev-list --reverse <mb>..HEAD`. -/
structure Repo where
  currentBranch : Option String
  headRevList : List String
  parent : String → Option String
  containingRaw : String → List String
  verifyOriginMain : Bool
  mergeBase : String → Option String
  uniqueFrom : String → List String

/-- The filter on line 97 of `bench_compare.py`: keep a containing ref only
if it is neither the current branch nor ends with `"/" + current_branch`. -/
def otherRefsFilter (cur : String) (refs : List String) : List String :=
  refs.filter (fun r => decide (r ≠ cur) && ! pyEndsWith r ("/" ++ cur))

/-- One iteration of the scan loop in `find_branch_origin_parent`: look up
the parent of the commit; if it exists and is contained in refs other than the
current branch, report `(commit, parent, other_refs)`. -/
def findStep (repo : Repo) (cur : String) (commit : String) :
    Option (String × String × List String) :=
  match repo.parent commit with
  | none => none
  | some p =>
    let others := otherRefsFilter cur (branchesContaining (repo.containingRaw p))
    if others = [] then none else some (commit, p, others)

/-- Model of `find_branch_origin_parent`: scan the commits of HEAD oldest to newest
and return the first `(first_unique, parent, other_refs)` hit. -/
def findBranchOriginParent (repo : Repo) : Option (String × String × List String) :=
  let cur := repo.currentBranch.getD ""
  if repo.headRevList = [] then none
  else repo.headRevList.findSome? (findStep repo cur)

/-- The order-preserving deduplication at the start of `pick_preferred_ref`. -/
def dedupFirst (l : List String) : List String :=
  l.foldl (fun acc r => if r ∈ acc then acc else acc ++ [r]) []

/-- Model of `pick_preferred_ref`: prefer `origin/main`, then `origin/master`, then
the first `origin/`-prefixed ref, then the first remaining ref. -/
def pickPreferredRef (refs : List String) : String :=
  if refs = [] then ""
  else
    let refs := dedupFirst refs
    if "origin/main" ∈ refs then "origin/main"
    else if "origin/master" ∈ refs then "origin/master"
    else
      match refs.find? (fun r => pyStartsWith r "origin/") with
      | some r => r
      | none => refs.headD ""

/-- Which of the two resolution strategies produced the result. -/
inductive Strategy where
  | autoDetect
  | mergeBaseFallback
deriving DecidableEq, Repr

/-- Line 185: the fallback base ref is `origin/main` when
`git rev-parse --verify origin/main` succeeds, else `main`. -/
def baseRefOf (repo : Repo) : String :=
  if repo.verifyOriginMain then "origin/main" else "main"

/-- The resolution phase of `main` (`bench_compare.py` lines 168-193): first
try `find_branch_origin_parent`; only if it returns nothing, fall back to
`git merge-base` with `origin/main`/`main`.  The result is
`(branch_origin_parent, branch_tip, chosen_base_ref, strategy)`; `.error 2`
models `sys.exit(2)` when the fallback merge-base fails. -/
def resolveDivergence (repo : Repo) :
    Except Nat (String × String × String × Strategy) :=
  match findBranchOriginParent repo with
  | some (_, p, refs) =>
    let chosen := pickPreferredRef refs
    let chosen := if chosen = "" then refs.headD "" else chosen
    .ok (p, "HEAD", chosen, .autoDetect)
  | none =>
    let base := baseRefOf repo
    match repo.mergeBase base with
    | none => .error 2
    | some mb =>
      let firstUnique := (repo.uniqueFrom mb).headD mb
      let origin := (repo.parent firstUnique).getD mb
      .ok (origin, "HEAD", base, .mergeBaseFallback)

/- ### Benchmark harness: `time_run` in `bench_compare.py` and `benchmark.py` -/

/-- One `subprocess.run` call made by a timing loop, with the command string
and whether the call silences the stdout/stderr of the subprocess
(`stdout=DEVNULL, stderr=DEVNULL`). -/
structure Invocation where
  cmd : String
  silenceOutput : Bool
deriving DecidableEq, Repr

/-- The two fatal outcomes of a timing loop: `CalledProcessError` from a
non-zero run (`check=True`), or `StatisticsError` from `statistics.median`
on an empty list. -/
inductive RunError where
  | processFailed
  | emptyData
deriving DecidableEq, Repr

/-- Whether a modelled run result is a success. -/
def runOk : Except Unit ℚ → Bool
  | .ok _ => true
  | .error _ => false

/-- Model of `statistics.median`: sort ascending; the middle element for odd length,
the mean of the two middle elements for even length, failure on `[]`. -/
def pyMedian : List ℚ → Option ℚ
  | [] => none
  | x :: t =>
    let s := (x :: t).insertionSort (· ≤ ·)
    let n := s.length
    if n % 2 = 1 then some (s.getD (n / 2) 0)
    else some ((s.getD (n / 2 - 1) 0 + s.getD (n / 2) 0) / 2)

/-- The timing loop body shared by both `time_run` variants: run the command
`n` more times starting at repetition index `i`, stopping at the first
failing run (`check=True` raises immediately); returns the collected
durations and the trace of subprocess invocations. -/
def timeRunGo (cmd : String) (sil : Bool) (oc : Nat → Except Unit ℚ) :
    Nat → Nat → Except Unit (List ℚ) × List Invocation
  | _, 0 => (.ok [], [])
  | i, n + 1 =>
    match oc i with
    | .error _ => (.error (), [⟨cmd, sil⟩])
    | .ok t =>
      let r := timeRunGo cmd sil oc (i + 1) n
      (r.1.map (fun ts => t :: ts), ⟨cmd, sil⟩ :: r.2)

/-- A `time_run(cmd, runs)` implementation parametrized by whether the
subprocess output is silenced: collect the durations of up to `runs`
sequential runs of `cmd` and return their median. -/
def timeRunCore (sil : Bool) (cmd : String) (oc : Nat → Except Unit ℚ)
    (runs : Nat) : Except RunError ℚ × List Invocation :=
  let r := timeRunGo cmd sil oc 0 runs
  (match r.1 with
   | .error _ => .error .processFailed
   | .ok ts =>
     match pyMedian ts with
     | none => .error .emptyData
     | some m => .ok m,
   r.2)

/-- The `time_run` of `bench_compare.py` (lines 30-37): output silenced via
`stdout=subprocess.DEVNULL, stderr=subprocess.DEVNULL`. -/
def timeRunBenchCompare : String → (Nat → Except Unit ℚ) → Nat →
    Except RunError ℚ × List Invocation :=
  timeRunCore true

/-- The `time_run` of `benchmark.py` (lines 3-9): identical loop, but
`subprocess.run(cmd, shell=True, check=True)` inherits the stdout/stderr
of the parent process, so nothing is silenced. -/
def timeRunBenchmarkPy : String → (Nat → Except Unit ℚ) → Nat →
    Except RunError ℚ × List Invocation :=
  timeRunCore false

/- ### Reference materializer: `safe_checkout`, `detect_restore_cmd`,
`benchmark_commit` and the benchmarking phase of `main` -/

/-- The position of HEAD: on a named branch, or detached at a commit. -/
inductive Head where
  | onBranch (b : String)
  | detached (h : String)
deriving DecidableEq, Repr

/-- The repository state visible to checkouts: the current HEAD plus the
previous checkout location (the target of a later `git checkout -`
command), recorded whenever a checkout moves HEAD. -/
structure ProcState where
  head : Head
  prev : Option Head
deriving DecidableEq, Repr

/-- The git world for checkouts: which local branch names exist, and which
other commit-ish strings (hashes, remote refs) resolve to which hash. -/
structure GitWorld where
  branches : List String
  refHash : String → Option String

/-- Apply a successful checkout: if HEAD actually moves, the old position
becomes `@{-1}`. -/
def applyCheckout (s : ProcState) (newHead : Head) : ProcState :=
  if newHead = s.head then s else ⟨newHead, some s.head⟩

/-- Model of `git checkout --quiet <ref>`: `HEAD` stays put; a local branch name
checks out that branch; anything else resolving to a hash detaches there;
otherwise the command fails (`none`). -/
def gitCheckout (w : GitWorld) (s : ProcState) (ref : String) : Option ProcState :=
  if ref = "HEAD" then some s
  else if ref ∈ w.branches then some (applyCheckout s (.onBranch ref))
  else
    match w.refHash ref with
    | some h => some (applyCheckout s (.detached h))
    | none => none

/-- The ref named by `detect_restore_cmd`: the branch name when on a branch
(`git symbolic-ref`), else the commit hash (`git rev-parse HEAD`). -/
def targetRef : Head → String
  | .onBranch b => b
  | .detached h => h

/-- The restore attempt in the `finally` block of `benchmark_commit`: run the captured
restore command; any failure is swallowed (`except Exception: pass`). -/
def attemptRestore (w : GitWorld) (s : ProcState) (t : Head) : ProcState :=
  match gitCheckout w s (targetRef t) with
  | some s2 => s2
  | none => s

/-- Model of `git checkout --quiet -` with `check=False` (the `finally` of `main`):
check out `@{-1}` if it exists, swallowing any failure. -/
def checkoutDash (w : GitWorld) (s : ProcState) : ProcState :=
  match s.prev with
  | none => s
  | some t => attemptRestore w s t

/-- The fatal outcomes of one `benchmark_commit` call. -/
inductive BenchError where
  | checkoutFailed
  | runFailed (e : RunError)
deriving DecidableEq, Repr

/-- Model of `benchmark_commit(commit, label, filepath, runs)` (lines 113-126):
capture the restore command, check out `commit`, time
`python <filepath>`, and always attempt restoration in the `finally`
block.  `oc c i` gives the outcome of repetition `i` of the command with
commit `c` checked out. -/
def benchmarkCommit (w : GitWorld) (oc : String → Nat → Except Unit ℚ)
    (commit filepath : String) (runs : Nat) (s : ProcState) :
    Except BenchError ℚ × ProcState :=
  let restoreTarget := s.head
  match gitCheckout w s commit with
  | none => (.error .checkoutFailed, attemptRestore w s restoreTarget)
  | some s1 =>
    match (timeRunBenchCompare ("python " ++ filepath) (oc commit) runs).1 with
    | .error e => (.error (.runFailed e), attemptRestore w s1 restoreTarget)
    | .ok t => (.ok t, attemptRestore w s1 restoreTarget)

/-- A sequence of materializations: run `benchmark_commit` on each listed
commit in order, threading the repository state. -/
def benchSeq (w : GitWorld) (oc : String → Nat → Except Unit ℚ)
    (filepath : String) (runs : Nat) : List String → ProcState → ProcState
  | [], s => s
  | c :: cs, s => benchSeq w oc filepath runs cs (benchmarkCommit w oc c filepath runs s).2

/-- The three benchmark calls of `main` (lines 204-207) inside
`try ... finally: git checkout -`: origin parent, then `HEAD`, then the
chosen base tip; the first failure propagates past the `finally`.  Also
returns the list of references for which a benchmark was attempted. -/
def benchPhase (w : GitWorld) (oc : String → Nat → Except Unit ℚ)
    (originC baseTip filepath : String) (runs : Nat) (s : ProcState) :
    Except BenchError (ℚ × ℚ × ℚ) × ProcState × List String :=
  match benchmarkCommit w oc originC filepath runs s with
  | (.error e, s1) => (.error e, checkoutDash w s1, [originC])
  | (.ok t1, s1) =>
    match benchmarkCommit w oc "HEAD" filepath runs s1 with
    | (.error e, s2) => (.error e, checkoutDash w s2, [originC, "HEAD"])
    | (.ok t2, s2) =>
      match benchmarkCommit w oc baseTip filepath runs s2 with
      | (.error e, s3) => (.error e, checkoutDash w s3, [originC, "HEAD", baseTip])
      | (.ok t3, s3) => (.ok (t1, t2, t3), checkoutDash w s3, [originC, "HEAD", baseTip])

/- ### Regression judge: `main` lines 214-224 and exit codes -/

/-- The comparison on lines 214/220: the candidate passes against a baseline
unless `candidate > baseline * 1.10`. -/
def comparisonPassed (candidate baseline : ℚ) : Bool :=
  ! decide (candidate > baseline * (11 / 10))

/-- The judge: given the origin, branch-tip and base-tip timings, the
regression flag (true iff either comparison failed) and the two printed
comparisons in order. -/
def verdictOf (startT endT mainT : ℚ) : Bool × List (String × Bool) :=
  let c1 := comparisonPassed endT startT
  let c2 := comparisonPassed endT mainT
  (!c1 || !c2, [("branch origin (parent)", c1), ("current base tip", c2)])

/-- The whole program: resolve the three references, benchmark them, judge.
Returns `(exit code, final repository state, benchmarked refs)`.
`sys.exit(2)` for a failed fallback resolution; an uncaught
`CalledProcessError` terminates the interpreter with status 1; otherwise
exit 1 iff a regression was flagged. -/
def programRun (repo : Repo) (w : GitWorld) (oc : String → Nat → Except Unit ℚ)
    (filepath : String) (runs : Nat) (s : ProcState) :
    Nat × ProcState × List String :=
  match resolveDivergence repo with
  | .error c => (c, s, [])
  | .ok (origin, _, base, _) =>
    let baseTip := if base = "" then "origin/main" else base
    match benchPhase w oc origin baseTip filepath runs s with
    | (.error _, s1, tr) => (1, s1, tr)
    | (.ok (t1, t2, t3), s1, tr) =>
      ((if (verdictOf t1 t2 t3).1 then 1 else 0), s1, tr)

/- ### Concrete repositories used as witnesses and counterexamples -/

/-- A two-commit branch `feat` where the parent of the first commit is contained in a
local branch `dev`; `origin/main` is also resolvable, so the merge-base
fallback strategy would succeed as well. -/
def exR1 : Repo where
  currentBranch := some "feat"
  headRevList := ["c0", "c1"]
  parent := fun c => if c = "c1" then some "c0" else none
  containingRaw := fun c => if c = "c0" then ["dev"] else []
  verifyOriginMain := true
  mergeBase := fun b => if b = "origin/main" then some "c0" else none
  uniqueFrom := fun _ => ["c1"]

/-- Running on `main` itself, fully pushed: every containing ref is `main`
or `origin/main`, so auto-detection finds nothing; the merge-base of
`origin/main` and HEAD is the tip `c1` itself and the unique-commit set is
empty. -/
def exR2 : Repo where
  currentBranch := some "main"
  headRevList := ["c0", "c1"]
  parent := fun c => if c = "c1" then some "c0" else none
  containingRaw := fun c => if c = "c0" then ["* main", "remotes/origin/main"] else []
  verifyOriginMain := true
  mergeBase := fun b => if b = "origin/main" then some "c1" else none
  uniqueFrom := fun _ => []

/-- A history with two roots: auto-detection finds nothing (no parents are
known), the merge-base with `main` is `m0`, and the oldest unique commit
`r0` is a root commit. -/
def exR4 : Repo where
  currentBranch := some "feat"
  headRevList := ["r0", "c1"]
  parent := fun _ => none
  containingRaw := fun _ => []
  verifyOriginMain := false
  mergeBase := fun b => if b = "main" then some "m0" else none
  uniqueFrom := fun mb => if mb = "m0" then ["r0", "c1"] else []

/- ### C1: order of the two resolution strategies -/

/-- C1 (counterexample): the claim says the explicit-base strategy is tried
first and auto-detection only as a fallback.  On `exR1` the explicit-base
strategy is available (`git merge-base origin/main HEAD` succeeds), yet the
resolver returns the auto-detection result with base `"dev"`, not
`"origin/main"`: auto-detection ran first and won. -/
theorem resolve_order_counterexample :
    resolveDivergence exR1 = .ok ("c0", "HEAD", "dev", .autoDetect) ∧
    exR1.mergeBase (baseRefOf exR1) = some "c0" ∧
    Strategy.autoDetect ≠ Strategy.mergeBaseFallback ∧
    ("dev" : String) ≠ "origin/main" :=
  ⟨rfl, rfl, by decide, by decide⟩

/-- C1 (amended): the resolver attempts the two strategies in a fixed order
with first success winning, but the order is auto-detection first; the
merge-base (explicit-base) strategy is used exactly on the inputs where
auto-detection finds nothing. -/
theorem resolve_autodetect_priority (repo : Repo) (o tip base : String)
    (strat : Strategy)
    (h : resolveDivergence repo = .ok (o, tip, base, strat)) :
    (strat = Strategy.autoDetect ↔ (findBranchOriginParent repo).isSome = true) ∧
    (strat = Strategy.mergeBaseFallback ↔ findBranchOriginParent repo = none) := by
  unfold resolveDivergence at h
  cases hf : findBranchOriginParent repo with
  | some v =>
    obtain ⟨fu, p, refs⟩ := v
    simp only [hf, Except.ok.injEq, Prod.mk.injEq] at h
    obtain ⟨-, -, -, hs⟩ := h
    subst hs
    simp [hf]
  | none =>
    simp only [hf] at h
    cases hm : repo.mergeBase (baseRefOf repo) with
    | none =>
      simp only [hm] at h
      exact Except.noConfusion h
    | some mb =>
      simp only [hm, Except.ok.injEq, Prod.mk.injEq] at h
      obtain ⟨-, -, -, hs⟩ := h
      subst hs
      simp

/-- C1 (witness): the priority theorem applied to the concrete `exR1`. -/
theorem resolve_autodetect_priority_witness :
    (Strategy.autoDetect = Strategy.autoDetect ↔
      (findBranchOriginParent exR1).isSome = true) ∧
    (Strategy.autoDetect = Strategy.mergeBaseFallback ↔
      findBranchOriginParent exR1 = none) :=
  resolve_autodetect_priority exR1 "c0" "HEAD" "dev" .autoDetect rfl

/- ### C2: empty unique-commit set in the fallback strategy -/

/-- C2 (counterexample): on `exR2` the unique-commit set above the resolved
base is empty, but the resolver returns `"c0"`, the parent of the lowest
common ancestor `"c1"`, not the lowest common ancestor itself as claimed. -/
theorem empty_unique_set_counterexample :
    resolveDivergence exR2 = .ok ("c0", "HEAD", "origin/main", .mergeBaseFallback) ∧
    exR2.mergeBase (baseRefOf exR2) = some "c1" ∧
    exR2.uniqueFrom "c1" = [] ∧
    exR2.parent "c1" = some "c0" ∧
    ("c0" : String) ≠ "c1" :=
  ⟨rfl, rfl, rfl, rfl, by decide⟩

/-- C2 (amended): whenever the fallback strategy runs (auto-detection found
nothing), its merge-base succeeds, and the unique-commit set is empty, the
resolver does not fail and returns the *parent* of the lowest common
ancestor as origin commit (the ancestor itself only when it has no
parent). -/
theorem empty_unique_set_parent_of_lca (repo : Repo) (mb : String)
    (h1 : findBranchOriginParent repo = none)
    (h2 : repo.mergeBase (baseRefOf repo) = some mb)
    (h3 : repo.uniqueFrom mb = []) :
    resolveDivergence repo =
      .ok ((repo.parent mb).getD mb, "HEAD", baseRefOf repo, .mergeBaseFallback) := by
  unfold resolveDivergence
  simp only [h1, h2, h3, List.headD]

/-- C2 (witness): the amended fallback behaviour on the concrete `exR2`. -/
theorem empty_unique_set_parent_of_lca_witness :
    resolveDivergence exR2 =
      .ok ((exR2.parent "c1").getD "c1", "HEAD", baseRefOf exR2, .mergeBaseFallback) :=
  empty_unique_set_parent_of_lca exR2 "c1" rfl rfl rfl

/- ### C4: root first unique commit in the fallback strategy -/

/-- C4: if the oldest unique commit of the fallback strategy is a root
commit (`git rev-parse <fu>^` fails), the resolver falls back to the lowest
common ancestor `mb` as origin instead of failing; moreover the only
error outcome of the resolver anywhere is exit code 2 (a failed fallback merge-base),
so a parent lookup can never be a fatal outcome. -/
theorem root_first_unique_falls_back_lca (repo : Repo) (mb fu : String)
    (rest : List String)
    (h1 : findBranchOriginParent repo = none)
    (h2 : repo.mergeBase (baseRefOf repo) = some mb)
    (h3 : repo.uniqueFrom mb = fu :: rest)
    (h4 : repo.parent fu = none) :
    resolveDivergence repo =
      .ok (mb, "HEAD", baseRefOf repo, .mergeBaseFallback) ∧
    ∀ (r : Repo) (n : Nat), resolveDivergence r = .error n → n = 2 := by
  constructor
  · unfold resolveDivergence
    simp only [h1, h2, h3, List.headD, h4, Option.getD]
  · intro r n h
    unfold resolveDivergence at h
    cases hf : findBranchOriginParent r with
    | some v =>
      obtain ⟨fu2, p2, refs2⟩ := v
      simp only [hf] at h
      exact Except.noConfusion h
    | none =>
      simp only [hf] at h
      cases hm : r.mergeBase (baseRefOf r) with
      | none =>
        simp only [hm, Except.error.injEq] at h
        exact h.symm
      | some mb2 =>
        simp only [hm] at h
        exact Except.noConfusion h

/-- C4 (witness): the root-commit fallback on the concrete `exR4`. -/
theorem root_first_unique_falls_back_lca_witness :
    (resolveDivergence exR4 =
      .ok ("m0", "HEAD", baseRefOf exR4, .mergeBaseFallback)) ∧
    ∀ (r : Repo) (n : Nat), resolveDivergence r = .error n → n = 2 :=
  root_first_unique_falls_back_lca exR4 "m0" "r0" ["c1"] rfl rfl rfl rfl

/- ### C3: the `pick_preferred_ref` tie-break -/

/-- Membership through the order-preserving fold of `dedupFirst`. -/
theorem mem_dedupFirst_fold (l : List String) :
    ∀ (acc : List String) (a : String),
      (a ∈ l.foldl (fun acc r => if r ∈ acc then acc else acc ++ [r]) acc) ↔
        (a ∈ acc ∨ a ∈ l) := by
  induction l with
  | nil => intro acc a; simp
  | cons r t ih =>
    intro acc a
    simp only [List.foldl_cons]
    by_cases hr : r ∈ acc
    · rw [if_pos hr, ih]
      simp only [List.mem_cons]
      constructor
      · rintro (h | h)
        · exact Or.inl h
        · exact Or.inr (Or.inr h)
      · rintro (h | h | h)
        · exact Or.inl h
        · exact Or.inl (h ▸ hr)
        · exact Or.inr h
    · rw [if_neg hr, ih]
      simp only [List.mem_append, List.mem_cons, List.mem_singleton]
      tauto

/-- The function `dedupFirst` preserves the set of elements. -/
theorem mem_dedupFirst (a : String) (l : List String) :
    a ∈ dedupFirst l ↔ a ∈ l := by
  unfold dedupFirst
  rw [mem_dedupFirst_fold]
  simp

/-- If `origin/main` occurs anywhere in the input, the tie-break picks it. -/
theorem pickPreferredRef_of_mem_main (refs : List String)
    (h : "origin/main" ∈ refs) :
    pickPreferredRef refs = "origin/main" := by
  unfold pickPreferredRef
  rw [if_neg (by simpa using List.ne_nil_of_mem h),
    if_pos ((mem_dedupFirst _ _).mpr h)]

/-- A permutation of a two-element list is one of its two arrangements. -/
theorem perm_pair_cases (l : List String) (a b : String)
    (h : l.Perm [a, b]) : l = [a, b] ∨ l = [b, a] := by
  have hlen : l.length = 2 := by simpa using h.length_eq
  match l, hlen with
  | [x, y], _ =>
    have hx : x ∈ ([a, b] : List String) := h.mem_iff.mp (by simp)
    simp only [List.mem_cons, List.not_mem_nil, or_false] at hx
    rcases hx with hxa | hxb
    · left
      have h2 := h
      rw [hxa] at h2
      have hy : [y].Perm [b] := h2.cons_inv
      rw [List.perm_singleton] at hy
      rw [hxa, hy]
    · right
      have hsw : ([a, b] : List String).Perm [b, a] := List.Perm.swap b a []
      have h2 := h
      rw [hxb] at h2
      have hy : [y].Perm [a] := (h2.trans hsw).cons_inv
      rw [List.perm_singleton] at hy
      rw [hxb, hy]

/-- C3 (counterexample): the claim says the tie-break is an
input-order-independent function of the *set* of refs.  The lists
`["origin/a","origin/b"]` and `["origin/b","origin/a"]` are permutations of
each other (the same set), yet the tie-break returns different refs, so it
depends on enumeration order. -/
theorem pick_ref_order_dependence :
    pickPreferredRef ["origin/a", "origin/b"] = "origin/a" ∧
    pickPreferredRef ["origin/b", "origin/a"] = "origin/b" ∧
    (["origin/a", "origin/b"] : List String).Perm ["origin/b", "origin/a"] ∧
    ("origin/a" : String) ≠ "origin/b" :=
  ⟨rfl, rfl, List.Perm.swap "origin/b" "origin/a" [], by decide⟩

/-- C3 (amended): the tie-break is a deterministic function of the input
*list*; it is order-independent on inputs containing `origin/main` (always
choosing it), and in particular on the two sets quoted by the claim: every
enumeration order of `{origin/dev, origin/main, feature/x}` yields
`origin/main` and every order of `{origin/dev, feature/x}` yields
`origin/dev`; order-independence does not hold for general inputs. -/
theorem pick_ref_tiebreak_amended :
    (∀ refs : List String, "origin/main" ∈ refs →
      pickPreferredRef refs = "origin/main") ∧
    (∀ l : List String, l.Perm ["origin/dev", "origin/main", "feature/x"] →
      pickPreferredRef l = "origin/main") ∧
    (∀ l : List String, l.Perm ["origin/dev", "feature/x"] →
      pickPreferredRef l = "origin/dev") := by
  refine ⟨pickPreferredRef_of_mem_main, ?_, ?_⟩
  · intro l h
    exact pickPreferredRef_of_mem_main l (h.mem_iff.mpr (by simp))
  · intro l h
    rcases perm_pair_cases l _ _ h with rfl | rfl <;> rfl

/-- C3 (witness): the amended tie-break on concrete enumeration orders. -/
theorem pick_ref_tiebreak_amended_witness :
    pickPreferredRef ["feature/x", "origin/dev"] = "origin/dev" ∧
    pickPreferredRef ["feature/x", "origin/main", "origin/dev"] = "origin/main" :=
  ⟨pick_ref_tiebreak_amended.2.2 ["feature/x", "origin/dev"]
      (List.Perm.swap "origin/dev" "feature/x" []),
    pick_ref_tiebreak_amended.1 ["feature/x", "origin/main", "origin/dev"]
      (by simp)⟩

/- ### C10: exclusion of the current branch and its tracking refs -/

/-- Extract the witnessing element of a successful `findSome?`. -/
theorem exists_of_findSome_hit {α β : Type} (f : α → Option β) (l : List α)
    (b : β) (h : l.findSome? f = some b) : ∃ a ∈ l, f a = some b := by
  induction l with
  | nil => simp [List.findSome?] at h
  | cons x t ih =>
    rw [List.findSome?_cons] at h
    cases hf : f x with
    | some v =>
      rw [hf] at h
      have h2 : some v = some b := h
      exact ⟨x, by simp, hf.trans h2⟩
    | none =>
      rw [hf] at h
      have h2 : List.findSome? f t = some b := h
      obtain ⟨a, ha, hfa⟩ := ih h2
      exact ⟨a, by simp [ha], hfa⟩

/-- Membership in the "other refs" filter of `find_branch_origin_parent`:
kept exactly when distinct from the current branch AND not ending in
`"/" + current_branch`. -/
theorem mem_otherRefsFilter (cur r : String) (refs : List String) :
    r ∈ otherRefsFilter cur refs ↔
      r ∈ refs ∧ r ≠ cur ∧ pyEndsWith r ("/" ++ cur) = false := by
  unfold otherRefsFilter
  rw [List.mem_filter]
  simp

/-- The remote-tracking form `origin/<branch>` always ends with
`"/" + <branch>`. -/
theorem pyEndsWith_origin_slash (cur : String) :
    pyEndsWith ("origin/" ++ cur) ("/" ++ cur) = true := by
  unfold pyEndsWith
  rw [List.isSuffixOf_iff_suffix]
  have h1 : ("origin/" ++ cur).data = "origin".data ++ ("/" ++ cur).data := by
    rw [String.data_append, String.data_append, ← List.append_assoc]
    rfl
  rw [h1]
  exact List.suffix_append _ _

/-- The string `origin/<branch>` is never empty. -/
theorem origin_prefix_ne_empty (cur : String) : ("origin/" ++ cur) ≠ "" := by
  intro he
  have hd := String.ext_iff.mp he
  rw [String.data_append] at hd
  rcases List.append_eq_nil.mp hd with ⟨h1, -⟩
  exact absurd h1 (by decide)

/-- Applying `dedupFirst` to a non-empty list gives a non-empty list. -/
theorem dedupFirst_ne_nil (refs : List String) (h : refs ≠ []) :
    dedupFirst refs ≠ [] := by
  cases refs with
  | nil => exact absurd rfl h
  | cons x t =>
    exact List.ne_nil_of_mem ((mem_dedupFirst x _).mpr (by simp))

/-- On a non-empty input, the tie-break always returns one of the inputs. -/
theorem pickPreferredRef_mem (refs : List String) (h : refs ≠ []) :
    pickPreferredRef refs ∈ refs := by
  unfold pickPreferredRef
  rw [if_neg h]
  by_cases h1 : "origin/main" ∈ dedupFirst refs
  · rw [if_pos h1]
    exact (mem_dedupFirst _ _).mp h1
  · rw [if_neg h1]
    by_cases h2 : "origin/master" ∈ dedupFirst refs
    · rw [if_pos h2]
      exact (mem_dedupFirst _ _).mp h2
    · rw [if_neg h2]
      cases hf : (dedupFirst refs).find? (fun r => pyStartsWith r "origin/") with
      | some r =>
        simp only [hf]
        exact (mem_dedupFirst _ _).mp (List.mem_of_find?_eq_some hf)
      | none =>
        simp only [hf]
        cases hde : dedupFirst refs with
        | nil => exact absurd hde (dedupFirst_ne_nil refs h)
        | cons x t =>
          exact (mem_dedupFirst x refs).mp (by rw [hde]; exact List.mem_cons_self x t)

/-- Anatomy of a successful auto-detection: the reported refs are exactly
the filtered containing refs of the parent, and are non-empty. -/
theorem findBranchOriginParent_spec (repo : Repo) (fu p : String)
    (rs : List String)
    (h : findBranchOriginParent repo = some (fu, p, rs)) :
    rs = otherRefsFilter (repo.currentBranch.getD "")
        (branchesContaining (repo.containingRaw p)) ∧ rs ≠ [] := by
  unfold findBranchOriginParent at h
  by_cases he : repo.headRevList = []
  · rw [if_pos he] at h
    exact Option.noConfusion h
  · rw [if_neg he] at h
    obtain ⟨c, _, hstep⟩ := exists_of_findSome_hit _ _ _ h
    unfold findStep at hstep
    cases hp : repo.parent c with
    | none =>
      rw [hp] at hstep
      exact Option.noConfusion hstep
    | some p2 =>
      rw [hp] at hstep
      by_cases ho : otherRefsFilter (repo.currentBranch.getD "")
          (branchesContaining (repo.containingRaw p2)) = []
      · simp only [ho, if_pos] at hstep
        exact Option.noConfusion hstep
      · simp only [if_neg ho, Option.some.injEq, Prod.mk.injEq] at hstep
        obtain ⟨-, hp2, hrs⟩ := hstep
        subst hp2
        exact ⟨hrs.symm, hrs ▸ ho⟩

/-- C10: a containing ref is counted as an "other" branch exactly when it is
neither the current branch nor ends with `"/" + current_branch`; hence the
remote-tracking ref `origin/<current-branch>` is never among the reported
divergence refs, and can never be the chosen base tip. -/
theorem current_branch_exclusion (repo : Repo) (fu p : String)
    (rs : List String)
    (h : findBranchOriginParent repo = some (fu, p, rs)) :
    (∀ r, r ∈ rs ↔
      (r ∈ branchesContaining (repo.containingRaw p) ∧
        r ≠ repo.currentBranch.getD "" ∧
        pyEndsWith r ("/" ++ repo.currentBranch.getD "") = false)) ∧
    ("origin/" ++ repo.currentBranch.getD "") ∉ rs ∧
    (∀ o tip b strat, resolveDivergence repo = .ok (o, tip, b, strat) →
      b ≠ "origin/" ++ repo.currentBranch.getD "") := by
  obtain ⟨hrs, hne⟩ := findBranchOriginParent_spec repo fu p rs h
  have hmem : ∀ r, r ∈ rs ↔
      (r ∈ branchesContaining (repo.containingRaw p) ∧
        r ≠ repo.currentBranch.getD "" ∧
        pyEndsWith r ("/" ++ repo.currentBranch.getD "") = false) := by
    intro r
    rw [hrs]
    exact mem_otherRefsFilter _ _ _
  have hnot : ("origin/" ++ repo.currentBranch.getD "") ∉ rs := by
    intro hin
    have := ((hmem _).mp hin).2.2
    rw [pyEndsWith_origin_slash] at this
    exact Bool.noConfusion this
  refine ⟨hmem, hnot, ?_⟩
  intro o tip b strat hres
  unfold resolveDivergence at hres
  simp only [h, Except.ok.injEq, Prod.mk.injEq] at hres
  obtain ⟨-, -, hb, -⟩ := hres
  by_cases hpe : pickPreferredRef rs = ""
  · rw [if_pos hpe] at hb
    intro habs
    cases rs with
    | nil => exact absurd rfl hne
    | cons x t =>
      have hxb : x = b := hb
      exact hnot (by rw [← habs, ← hxb]; exact List.mem_cons_self x t)
  · rw [if_neg hpe] at hb
    intro habs
    have hm := pickPreferredRef_mem rs hne
    rw [hb, habs] at hm
    exact hnot hm

/-- A concrete repository whose commit `c0` is contained in the current
branch `feat`, its remote-tracking ref `origin/feat`, and a branch `dev`. -/
def exR10 : Repo where
  currentBranch := some "feat"
  headRevList := ["c0", "c1"]
  parent := fun c => if c = "c1" then some "c0" else none
  containingRaw := fun c =>
    if c = "c0" then ["* feat", "remotes/origin/feat", "dev"] else []
  verifyOriginMain := false
  mergeBase := fun _ => none
  uniqueFrom := fun _ => []

/-- C10 (witness): on `exR10`, auto-detection reports only `dev`
(`feat` and `origin/feat` are excluded), and the chosen base is not
`origin/feat`. -/
theorem current_branch_exclusion_witness :
    (∀ r, r ∈ (["dev"] : List String) ↔
      (r ∈ branchesContaining (exR10.containingRaw "c0") ∧
        r ≠ exR10.currentBranch.getD "" ∧
        pyEndsWith r ("/" ++ exR10.currentBranch.getD "") = false)) ∧
    ("origin/" ++ exR10.currentBranch.getD "") ∉ (["dev"] : List String) ∧
    (∀ o tip b strat, resolveDivergence exR10 = .ok (o, tip, b, strat) →
      b ≠ "origin/" ++ exR10.currentBranch.getD "") :=
  current_branch_exclusion exR10 "c1" "c0" ["dev"] rfl

/- ### C9: the timing loops -/

/-- If every remaining repetition succeeds, the loop collects one duration
per repetition and records one invocation per repetition. -/
theorem timeRunGo_all_ok (cmd : String) (sil : Bool) (oc : Nat → Except Unit ℚ) :
    ∀ (n i : Nat), (∀ j, j < n → runOk (oc (i + j)) = true) →
      ∃ ts, timeRunGo cmd sil oc i n = (.ok ts, List.replicate n ⟨cmd, sil⟩) ∧
        ts.length = n := by
  intro n
  induction n with
  | zero => exact fun i _ => ⟨[], rfl, rfl⟩
  | succ n ih =>
    intro i h
    have h0 := h 0 (Nat.succ_pos n)
    cases hoc : oc i with
    | error e =>
      rw [Nat.add_zero, hoc] at h0
      exact Bool.noConfusion h0
    | ok t =>
      obtain ⟨ts, hgo, hlen⟩ := ih (i + 1) (fun j hj => by
        have h2 := h (j + 1) (Nat.succ_lt_succ hj)
        have heq : i + 1 + j = i + (j + 1) := by omega
        rw [heq]
        exact h2)
      refine ⟨t :: ts, ?_, by simp [hlen]⟩
      show (match oc i with
        | .error _ => (.error (), [⟨cmd, sil⟩])
        | .ok t =>
          let r := timeRunGo cmd sil oc (i + 1) n
          (r.1.map (fun ts => t :: ts), ⟨cmd, sil⟩ :: r.2)) =
        (.ok (t :: ts), List.replicate (n + 1) ⟨cmd, sil⟩)
      rw [hoc, hgo]
      simp [List.replicate_succ, Except.map]

/-- If some remaining repetition fails, the loop aborts with an error. -/
theorem timeRunGo_fail (cmd : String) (sil : Bool) (oc : Nat → Except Unit ℚ) :
    ∀ (n i : Nat), (∃ j, j < n ∧ runOk (oc (i + j)) = false) →
      (timeRunGo cmd sil oc i n).1 = .error () := by
  intro n
  induction n with
  | zero =>
    rintro i ⟨j, hj, -⟩
    exact absurd hj (Nat.not_lt_zero j)
  | succ n ih =>
    rintro i ⟨j, hj, hfail⟩
    cases hoc : oc i with
    | error e =>
      show (match oc i with
        | .error _ => ((.error () : Except Unit (List ℚ)), [(⟨cmd, sil⟩ : Invocation)])
        | .ok t =>
          let r := timeRunGo cmd sil oc (i + 1) n
          (r.1.map (fun ts => t :: ts), ⟨cmd, sil⟩ :: r.2)).1 = .error ()
      rw [hoc]
    | ok t =>
      cases j with
      | zero =>
        rw [Nat.add_zero, hoc] at hfail
        exact Bool.noConfusion hfail
      | succ j =>
        have hrec := ih (i + 1) ⟨j, Nat.lt_of_succ_lt_succ hj, by
          have heq : i + 1 + j = i + (j + 1) := by omega
          rw [heq]
          exact hfail⟩
        show (match oc i with
          | .error _ => ((.error () : Except Unit (List ℚ)), [(⟨cmd, sil⟩ : Invocation)])
          | .ok t =>
            let r := timeRunGo cmd sil oc (i + 1) n
            (r.1.map (fun ts => t :: ts), ⟨cmd, sil⟩ :: r.2)).1 = .error ()
        rw [hoc]
        dsimp only
        rw [hrec]
        rfl

/-- Every invocation recorded by the loop carries the command and
silencing mode of the loop. -/
theorem timeRunGo_trace (cmd : String) (sil : Bool) (oc : Nat → Except Unit ℚ) :
    ∀ (n i : Nat) (inv : Invocation), inv ∈ (timeRunGo cmd sil oc i n).2 →
      inv = ⟨cmd, sil⟩ := by
  intro n
  induction n with
  | zero =>
    intro i inv hmem
    exact absurd hmem (List.not_mem_nil inv)
  | succ n ih =>
    intro i inv hmem
    revert hmem
    show inv ∈ (match oc i with
      | .error _ => ((.error () : Except Unit (List ℚ)), [(⟨cmd, sil⟩ : Invocation)])
      | .ok t =>
        let r := timeRunGo cmd sil oc (i + 1) n
        (r.1.map (fun ts => t :: ts), ⟨cmd, sil⟩ :: r.2)).2 → inv = ⟨cmd, sil⟩
    cases hoc : oc i with
    | error e =>
      intro hmem
      simpa using hmem
    | ok t =>
      intro hmem
      rcases List.mem_cons.mp hmem with h | h
      · exact h
      · exact ih (i + 1) inv h

/-- The median of a non-empty duration list exists. -/
theorem pyMedian_cons_isSome (x : ℚ) (t : List ℚ) :
    ∃ m, pyMedian (x :: t) = some m := by
  unfold pyMedian
  dsimp only
  by_cases hp : ((x :: t).insertionSort (· ≤ ·)).length % 2 = 1
  · rw [if_pos hp]
    exact ⟨_, rfl⟩
  · rw [if_neg hp]
    exact ⟨_, rfl⟩

/-- C9 (counterexample): the claim attributes output-silencing to both
timing loops and says a fatal error occurs only when an individual run
exits non-zero.  But the `time_run` of `benchmark.py` does not silence its
subprocess, and with `runs = 0` the `bench_compare.py` loop raises a
`StatisticsError` (empty data) although no run failed. -/
theorem time_run_silencing_counterexample :
    (timeRunBenchmarkPy "python main.py" (fun _ => .ok 1) 1).2 =
      [⟨"python main.py", false⟩] ∧
    (timeRunBenchCompare "python main.py" (fun _ => .ok 1) 0).1 =
      .error .emptyData ∧
    (∀ j : Nat, runOk ((fun _ => (.ok 1 : Except Unit ℚ)) j) = true) :=
  ⟨rfl, rfl, fun _ => rfl⟩

/-- C9 (amended): for `runs ≥ 1`, both `time_run` loops return the median
over exactly `runs` sequential runs when every run succeeds, and abort with
a fatal `CalledProcessError` as soon as some run fails (no
median-of-successes); every subprocess invocation of the loop carries its
silencing mode, which is on for the loop in `bench_compare.py` and off for
the one in `benchmark.py`. -/
theorem time_run_amended (sil : Bool) (cmd : String) (oc : Nat → Except Unit ℚ)
    (runs : Nat) (h0 : 0 < runs) :
    ((∀ j, j < runs → runOk (oc j) = true) →
      ∃ ts m, timeRunGo cmd sil oc 0 runs = (.ok ts, List.replicate runs ⟨cmd, sil⟩) ∧
        ts.length = runs ∧ pyMedian ts = some m ∧
        (timeRunCore sil cmd oc runs).1 = .ok m) ∧
    ((∃ j, j < runs ∧ runOk (oc j) = false) →
      (timeRunCore sil cmd oc runs).1 = .error .processFailed) ∧
    (∀ inv, inv ∈ (timeRunCore sil cmd oc runs).2 → inv = ⟨cmd, sil⟩) ∧
    timeRunBenchCompare = timeRunCore true ∧
    timeRunBenchmarkPy = timeRunCore false := by
  refine ⟨?_, ?_, ?_, rfl, rfl⟩
  · intro h
    obtain ⟨ts, hgo, hlen⟩ := timeRunGo_all_ok cmd sil oc runs 0
      (fun j hj => by rw [Nat.zero_add]; exact h j hj)
    have hts : ts ≠ [] := by
      intro hnil
      rw [hnil] at hlen
      exact absurd hlen.symm (Nat.ne_of_gt h0)
    cases hde : ts with
    | nil => exact absurd hde hts
    | cons x t =>
      obtain ⟨m, hm⟩ := pyMedian_cons_isSome x t
      refine ⟨ts, m, hgo, hlen, by rw [hde]; exact hm, ?_⟩
      unfold timeRunCore
      rw [hgo]
      dsimp only
      rw [hde, hm]
  · intro h
    have hfail := timeRunGo_fail cmd sil oc runs 0
      (by
        obtain ⟨j, hj, hf⟩ := h
        exact ⟨j, hj, by rw [Nat.zero_add]; exact hf⟩)
    unfold timeRunCore
    cases hgo : timeRunGo cmd sil oc 0 runs with
    | mk r tr =>
      rw [hgo] at hfail
      dsimp only at hfail ⊢
      rw [hfail]
  · intro inv hmem
    exact timeRunGo_trace cmd sil oc runs 0 inv hmem

/-- C9 (witness): the amended timing-loop contract at `runs = 1` with a
constant successful run. -/
theorem time_run_amended_witness :
    ((∀ j, j < 1 → runOk ((fun _ => (.ok 2 : Except Unit ℚ)) j) = true) →
      ∃ ts m, timeRunGo "python main.py" true (fun _ => (.ok 2 : Except Unit ℚ)) 0 1 =
          (.ok ts, List.replicate 1 ⟨"python main.py", true⟩) ∧
        ts.length = 1 ∧ pyMedian ts = some m ∧
        (timeRunCore true "python main.py" (fun _ => (.ok 2 : Except Unit ℚ)) 1).1 = .ok m) ∧
    ((∃ j, j < 1 ∧ runOk ((fun _ => (.ok 2 : Except Unit ℚ)) j) = false) →
      (timeRunCore true "python main.py" (fun _ => (.ok 2 : Except Unit ℚ)) 1).1 =
        .error .processFailed) ∧
    (∀ inv, inv ∈ (timeRunCore true "python main.py" (fun _ => (.ok 2 : Except Unit ℚ)) 1).2 →
      inv = ⟨"python main.py", true⟩) ∧
    timeRunBenchCompare = timeRunCore true ∧
    timeRunBenchmarkPy = timeRunCore false :=
  time_run_amended true "python main.py" (fun _ => .ok 2) 1 (by decide)

/- ### C6: the regression threshold is inclusive -/

/-- C6: a comparison passes exactly when the candidate/baseline ratio is at
most `1 + 0.10`; a ratio of exactly `1.10` passes (the bound is inclusive)
and a ratio of `1.1001` fails. -/
theorem judge_threshold_inclusive (e b : ℚ) (hb : 0 < b) :
    (comparisonPassed e b = true ↔ e / b ≤ 11 / 10) ∧
    comparisonPassed (11 / 10 * b) b = true ∧
    comparisonPassed (11001 / 10000 * b) b = false := by
  refine ⟨?_, ?_, ?_⟩
  · unfold comparisonPassed
    rw [Bool.not_eq_true', decide_eq_false_iff_not, not_lt, div_le_iff₀ hb,
      mul_comm b (11 / 10 : ℚ)]
  · unfold comparisonPassed
    rw [Bool.not_eq_true', decide_eq_false_iff_not, not_lt,
      mul_comm b (11 / 10 : ℚ)]
  · unfold comparisonPassed
    rw [Bool.not_eq_false', decide_eq_true_eq]
    rw [mul_comm b (11 / 10 : ℚ)]
    exact mul_lt_mul_of_pos_right (by norm_num) hb

/-- C6 (witness): the inclusive threshold at baseline 1. -/
theorem judge_threshold_inclusive_witness :
    ((comparisonPassed 1 1 = true ↔ (1 : ℚ) / 1 ≤ 11 / 10) ∧
      comparisonPassed (11 / 10 * 1) 1 = true ∧
      comparisonPassed (11001 / 10000 * 1) 1 = false) :=
  judge_threshold_inclusive 1 1 (by norm_num)

/- ### C8: materializer round-trip -/

/-- A checkout that succeeds lands on the requested head position. -/
theorem applyCheckout_head (s : ProcState) (h : Head) :
    (applyCheckout s h).head = h := by
  unfold applyCheckout
  split
  · next heq => exact heq.symm
  · rfl

/-- If the starting head position can always be checked out again, one
`benchmark_commit` call returns the repository to the head position it
started from, whatever the checkout and the timed runs did. -/
theorem benchmarkCommit_restores (w : GitWorld)
    (oc : String → Nat → Except Unit ℚ) (c filepath : String) (runs : Nat)
    (hd : Head)
    (hrest : ∀ s : ProcState, ∃ s2, gitCheckout w s (targetRef hd) = some s2 ∧
      s2.head = hd)
    (s : ProcState) (hs : s.head = hd) :
    ((benchmarkCommit w oc c filepath runs s).2).head = hd := by
  have hrestore : ∀ s3 : ProcState, (attemptRestore w s3 s.head).head = hd := by
    intro s3
    obtain ⟨s2, hck, hh⟩ := hrest s3
    unfold attemptRestore
    rw [hs, hck]
    exact hh
  unfold benchmarkCommit
  cases hco : gitCheckout w s c with
  | none => exact hrestore s
  | some s1 =>
    cases hr : (timeRunBenchCompare ("python " ++ filepath) (oc c) runs).1 with
    | error e => exact hrestore s1
    | ok t => exact hrestore s1

/-- C8: the materializer round-trip.  For every sequence of snapshot
acquisitions and releases (one `benchmark_commit` per listed commit),
whether each timed run succeeds or fails, the branch/commit position of the
repository after the whole sequence equals the position before the first
acquisition; the restore step itself swallows its own failures and never
raises. -/
theorem materializer_round_trip (w : GitWorld)
    (oc : String → Nat → Except Unit ℚ) (filepath : String) (runs : Nat)
    (s0 : ProcState)
    (hrest : ∀ s : ProcState, ∃ s2, gitCheckout w s (targetRef s0.head) = some s2 ∧
      s2.head = s0.head) :
    ∀ commits : List String,
      (benchSeq w oc filepath runs commits s0).head = s0.head := by
  have main : ∀ (commits : List String) (s : ProcState), s.head = s0.head →
      (benchSeq w oc filepath runs commits s).head = s0.head := by
    intro commits
    induction commits with
    | nil => exact fun s hs => hs
    | cons c cs ih =>
      intro s hs
      exact ih _ (benchmarkCommit_restores w oc c filepath runs s0.head hrest s hs)
  exact fun commits => main commits s0 rfl

/-- The world for the round-trip witness: one local branch `b`, two commit
hashes. -/
def exW8 : GitWorld where
  branches := ["b"]
  refHash := fun r => if r = "c1" ∨ r = "c2" then some r else none

/-- Runs for the round-trip witness: the command fails at commit `c2`. -/
def exOc8 : String → Nat → Except Unit ℚ :=
  fun c _ => if c = "c2" then .error () else .ok 1

/-- C8 (witness): materializing `c1` (timed successfully) and then `c2`
(whose timed run fails) from branch `b` ends back on branch `b`. -/
theorem materializer_round_trip_witness :
    (benchSeq exW8 exOc8 "main.py" 1 ["c1", "c2"]
      ⟨.onBranch "b", none⟩).head = Head.onBranch "b" :=
  materializer_round_trip exW8 exOc8 "main.py" 1 ⟨.onBranch "b", none⟩
    (fun s => ⟨applyCheckout s (.onBranch "b"), rfl, applyCheckout_head s _⟩)
    ["c1", "c2"]

/- ### C5: missing target file at a resolved reference -/

/-- A failing repetition makes the whole timing call fail with
`CalledProcessError`. -/
theorem timeRunCore_fail_first (sil : Bool) (cmd : String)
    (oc : Nat → Except Unit ℚ) (runs : Nat)
    (h : ∃ j, j < runs ∧ runOk (oc j) = false) :
    (timeRunCore sil cmd oc runs).1 = .error .processFailed := by
  have hfail := timeRunGo_fail cmd sil oc runs 0
    (by
      obtain ⟨j, hj, hf⟩ := h
      exact ⟨j, hj, by rw [Nat.zero_add]; exact hf⟩)
  unfold timeRunCore
  cases hgo : timeRunGo cmd sil oc 0 runs with
  | mk r tr =>
    rw [hgo] at hfail
    dsimp only at hfail ⊢
    rw [hfail]

/-- C5 (amended): when the timed command fails at the first resolved
reference from the very first repetition (as it does when the target file
is absent there), the `CalledProcessError` propagates uncaught: the
process terminates with interpreter status 1 — not with a dedicated
exit code 3, which the program never produces — and no later reference is
benchmarked. -/
theorem missing_file_behavior (repo : Repo) (w : GitWorld)
    (oc : String → Nat → Except Unit ℚ) (filepath origin base : String)
    (strat : Strategy) (runs : Nat) (s s1 : ProcState)
    (hres : resolveDivergence repo = .ok (origin, "HEAD", base, strat))
    (hbase : base ≠ "")
    (hco : gitCheckout w s origin = some s1)
    (hfail : runOk (oc origin 0) = false)
    (hruns : 0 < runs) :
    ∃ sf, programRun repo w oc filepath runs s = (1, sf, [origin]) ∧
      (1 : Nat) ≠ 3 := by
  have htr : (timeRunBenchCompare ("python " ++ filepath) (oc origin) runs).1 =
      .error .processFailed :=
    timeRunCore_fail_first true _ _ runs ⟨0, hruns, hfail⟩
  have hb : benchmarkCommit w oc origin filepath runs s =
      (.error (.runFailed .processFailed), attemptRestore w s1 s.head) := by
    unfold benchmarkCommit
    rw [hco]
    dsimp only
    rw [htr]
  refine ⟨checkoutDash w (attemptRestore w s1 s.head), ?_, by decide⟩
  unfold programRun
  rw [hres]
  dsimp only
  rw [if_neg hbase]
  unfold benchPhase
  rw [hb]

/-- The repository for the missing-file scenario (auto-detection resolves
origin `c0`, base `dev`). -/
def exR5 : Repo where
  currentBranch := some "feat"
  headRevList := ["c0", "c1"]
  parent := fun c => if c = "c1" then some "c0" else none
  containingRaw := fun c => if c = "c0" then ["dev"] else []
  verifyOriginMain := true
  mergeBase := fun b => if b = "origin/main" then some "c0" else none
  uniqueFrom := fun _ => ["c1"]

/-- The git world for the missing-file scenario: branches `b` (the starting one)
and `dev`, and the origin commit hash `c0`. -/
def exW5 : GitWorld where
  branches := ["b", "dev"]
  refHash := fun r => if r = "c0" then some "c0" else none

/-- Run outcomes for the missing-file scenario: `python main.py` fails at
commit `c0` (the file does not exist there) and succeeds elsewhere. -/
def exOc5 : String → Nat → Except Unit ℚ :=
  fun c _ => if c = "c0" then .error () else .ok 1

/-- C5 (counterexample): with the target file missing at the resolved
origin `c0`, the program exits with status 1 — not 3 — after having
attempted a benchmark at `c0` (so action was taken there), and the final
`git checkout -` leaves the repository detached at `c0` rather than back on
the starting branch `b`. -/
theorem missing_file_exit_counterexample :
    programRun exR5 exW5 exOc5 "main.py" 1 ⟨.onBranch "b", none⟩ =
      (1, ⟨.detached "c0", some (.onBranch "b")⟩, ["c0"]) ∧
    (1 : Nat) ≠ 3 ∧
    Head.detached "c0" ≠ Head.onBranch "b" :=
  ⟨rfl, by decide, by decide⟩

/-- C5 (witness): the amended missing-file behaviour on the concrete
scenario. -/
theorem missing_file_behavior_witness :
    ∃ sf, programRun exR5 exW5 exOc5 "main.py" 1 ⟨.onBranch "b", none⟩ =
      (1, sf, ["c0"]) ∧ (1 : Nat) ≠ 3 :=
  missing_file_behavior exR5 exW5 exOc5 "main.py" "c0" "dev" .autoDetect 1
    ⟨.onBranch "b", none⟩ ⟨.detached "c0", some (.onBranch "b")⟩
    rfl (by decide) rfl rfl (by decide)

/- ### C7: the verdict enumerates all comparisons and drives the exit code -/

/-- C7: when all three benchmarks succeed, the regression flag of the verdict is
true iff at least one of the two comparisons failed, the verdict lists both
comparisons (never stopping at the first failure), and the exit code of the
program is 1 when the flag is set and 0 otherwise — a normal return value, not
an exception. -/
theorem verdict_enumerates_and_exit (repo : Repo) (w : GitWorld)
    (oc : String → Nat → Except Unit ℚ) (filepath origin base : String)
    (strat : Strategy) (runs : Nat) (s : ProcState) (t1 t2 t3 : ℚ)
    (sf : ProcState) (tr : List String)
    (hres : resolveDivergence repo = .ok (origin, "HEAD", base, strat))
    (hbase : base ≠ "")
    (hbench : benchPhase w oc origin base filepath runs s = (.ok (t1, t2, t3), sf, tr)) :
    ((verdictOf t1 t2 t3).1 = true ↔
      (comparisonPassed t2 t1 = false ∨ comparisonPassed t2 t3 = false)) ∧
    (verdictOf t1 t2 t3).2 =
      [("branch origin (parent)", comparisonPassed t2 t1),
        ("current base tip", comparisonPassed t2 t3)] ∧
    programRun repo w oc filepath runs s =
      ((if (verdictOf t1 t2 t3).1 then 1 else 0), sf, tr) := by
  refine ⟨?_, rfl, ?_⟩
  · unfold verdictOf
    dsimp only
    cases comparisonPassed t2 t1 <;> cases comparisonPassed t2 t3 <;> simp
  · unfold programRun
    rw [hres]
    dsimp only
    rw [if_neg hbase, hbench]

/-- Run outcomes for the verdict witness: 1 second at the origin, 2 at the
branch tip, 3 at the base tip. -/
def exOc7 : String → Nat → Except Unit ℚ :=
  fun c _ => if c = "c0" then .ok 1 else if c = "HEAD" then .ok 2 else .ok 3

/-- C7 (witness): the verdict contract on a concrete full run (origin 1 s,
tip 2 s, base 3 s). -/
theorem verdict_enumerates_and_exit_witness :
    ((verdictOf 1 2 3).1 = true ↔
      (comparisonPassed 2 1 = false ∨ comparisonPassed 2 3 = false)) ∧
    (verdictOf 1 2 3).2 =
      [("branch origin (parent)", comparisonPassed 2 1),
        ("current base tip", comparisonPassed 2 3)] ∧
    programRun exR5 exW5 exOc7 "main.py" 1 ⟨.onBranch "b", none⟩ =
      ((if (verdictOf 1 2 3).1 then 1 else 0),
        ⟨.onBranch "dev", some (.onBranch "b")⟩, ["c0", "HEAD", "dev"]) :=
  verdict_enumerates_and_exit exR5 exW5 exOc7 "main.py" "c0" "dev" .autoDetect 1
    ⟨.onBranch "b", none⟩ 1 2 3 ⟨.onBranch "dev", some (.onBranch "b")⟩
    ["c0", "HEAD", "dev"] rfl (by decide) rfl
